import Mathlib

/-!
Shallow embedding of the Visor3dMci viewer and its project server.

Client side (App component): the part-indexing traversal
(updatePartsFromRoot), the persisted-metadata reconciliation
(applyProjectPartsMeta), ground snapping (snapModelToGround) together with
the position/rotation effects, and the model-slot life cycle
(clearCurrentModel / addRootToScene and the loader completion callbacks).

Server side (server.js): the seven mutating endpoints of the project store,
modelled as pure functions from a request and the stored project list to an
HTTP result and the updated list.

Numbers that the JavaScript code treats as doubles are modelled as Rat
(coordinates) or Int (ids); hashing and slug normalization are abstract
function parameters, because no verified property depends on their values.
-/

/-- Truthiness of an optional JavaScript string: absent and the empty
string are falsy, every other string is truthy. -/
def jsTruthy : Option String → Bool
  | none => false
  | some s => s ≠ ""

/-- Semantics of the JavaScript expression a OR d for an optional string a
and a string default d: the value of a when it is present and non-empty,
otherwise d. -/
def jsOrStr (a : Option String) (d : String) : String :=
  match a with
  | none => d
  | some s => if s = "" then d else s

/-- Rational 3-vector standing in for the x,y,z objects of the source. -/
structure Vec3 where
  x : Rat
  y : Rat
  z : Rat
deriving DecidableEq

/-- Zero vector, the default position and rotation of the source. -/
def Vec3.zero : Vec3 := ⟨0, 0, 0⟩

/-- Record of one viewer part, as produced by updatePartsFromRoot. -/
structure ViewerPart where
  id : Nat
  name : String
  visible : Bool
  color : String
  materialPreset : String
  notes : String
deriving DecidableEq

/-- Palette PART_COLORS of the source, eight fixed hex strings. -/
def PART_COLORS : List String :=
  ["#f97316", "#22c55e", "#3b82f6", "#eab308",
   "#ec4899", "#8b5cf6", "#06b6d4", "#f59e0b"]

/-- Function getPartColor of the source: entry index mod 8 of the palette. -/
def getPartColor (index : Nat) : String :=
  PART_COLORS.get ⟨index % PART_COLORS.length, Nat.mod_lt _ (by simp [PART_COLORS])⟩

/-- Fields of one entry of MATERIAL_PRESETS. -/
structure MaterialPreset where
  label : String
  shininess : Rat
  specular : Nat
  transparent : Bool
  opacity : Rat
deriving DecidableEq

/-- Entry plastic of MATERIAL_PRESETS. -/
def plasticPreset : MaterialPreset := ⟨"Plástico / Pintura", 30, 0x444444, false, 1⟩

/-- Table MATERIAL_PRESETS of the source, keyed by preset name. -/
def MATERIAL_PRESETS : List (String × MaterialPreset) :=
  [("plastic", plasticPreset),
   ("metal", ⟨"Metal pulido", 80, 0xcccccc, false, 1⟩),
   ("roughMetal", ⟨"Metal rugoso", 25, 0x888888, false, 1⟩),
   ("rubber", ⟨"Goma / Caucho", 5, 0x111111, false, 1⟩),
   ("glass", ⟨"Vidrio", 90, 0xffffff, true, 1/4⟩)]

/-- Lookup in an association list with string keys, the first match wins,
mirroring JavaScript object property access. -/
def assocFind {α : Type} (key : String) : List (String × α) → Option α
  | [] => none
  | (k, v) :: rest => if k = key then some v else assocFind key rest

/-- Subset of the THREE material fields that the viewer reads or writes. -/
structure Material where
  isMeshPhongMaterial : Bool
  color : String
  shininess : Rat
  specular : Nat
  transparent : Bool
  opacity : Rat
  doubleSide : Bool
deriving DecidableEq

/-- Function createMaterialForPart of the source: a Phong material built
from the given hex color (white when the color is falsy) and preset. -/
def createMaterialForPart (colorHex : String) (presetKey : String) : Material :=
  let preset := (assocFind presetKey MATERIAL_PRESETS).getD plasticPreset
  { isMeshPhongMaterial := true
    color := jsOrStr (some colorHex) "#ffffff"
    shininess := preset.shininess
    specular := preset.specular
    transparent := preset.transparent
    opacity := preset.opacity
    doubleSide := true }

/-- Fields of userData that the viewer stamps onto mesh nodes. -/
structure UserData where
  partId : Option Nat
  baseColor : Option String
deriving DecidableEq

/-- Scene-graph node: a THREE Object3D restricted to the fields the viewer
logic reads (mesh flag, name, visibility, stamped userData, material) plus
the ordered child list. -/
inductive Obj3D where
  | mk (isMesh : Bool) (name : String) (visible : Bool)
       (userData : UserData) (material : Material) (children : List Obj3D)

/-- Mesh flag of a node. -/
def Obj3D.isMesh : Obj3D → Bool
  | .mk m _ _ _ _ _ => m

/-- Name of a node. -/
def Obj3D.name : Obj3D → String
  | .mk _ n _ _ _ _ => n

/-- Visibility flag of a node. -/
def Obj3D.visible : Obj3D → Bool
  | .mk _ _ v _ _ _ => v

/-- Stamped userData of a node. -/
def Obj3D.userData : Obj3D → UserData
  | .mk _ _ _ u _ _ => u

/-- Material of a node. -/
def Obj3D.material : Obj3D → Material
  | .mk _ _ _ _ mat _ => mat

/-- Children of a node. -/
def Obj3D.children : Obj3D → List Obj3D
  | .mk _ _ _ _ _ cs => cs

/-- Embedding of the traversal body of updatePartsFromRoot, running over a
work list in THREE traverse order: visit a node, then its children depth
first, then its right siblings. A visited mesh is stamped with the running
index and the palette base color, its material is normalized to the plastic
preset in the part color (replaced when it is not Phong, mutated in place
when it is), and one ViewerPart record is appended. Returns the rewritten nodes,
the ViewerPart records in visit order, and the final counter. -/
def stampList : Nat → List Obj3D → List Obj3D × List ViewerPart × Nat
  | i, [] => ([], [], i)
  | i, Obj3D.mk m nm vis ud mat cs :: rest =>
    if m then
      let partColor := getPartColor i
      let mat' :=
        if mat.isMeshPhongMaterial = false then
          createMaterialForPart partColor "plastic"
        else
          { mat with
            color := partColor
            shininess := plasticPreset.shininess
            specular := plasticPreset.specular
            transparent := plasticPreset.transparent
            opacity := plasticPreset.opacity
            doubleSide := true }
      let part : ViewerPart :=
        { id := i
          name := jsOrStr (some nm) ("Parte " ++ toString (i + 1))
          visible := vis
          color := partColor
          materialPreset := "plastic"
          notes := "" }
      let (cs', ps1, i2) := stampList (i + 1) cs
      let (rest', ps2, i3) := stampList i2 rest
      (Obj3D.mk m nm vis ⟨some i, some partColor⟩ mat' cs' :: rest',
       part :: (ps1 ++ ps2), i3)
    else
      let (cs', ps1, i2) := stampList i cs
      let (rest', ps2, i3) := stampList i2 rest
      (Obj3D.mk m nm vis ud mat cs' :: rest', ps1 ++ ps2, i3)
termination_by _ ts => sizeOf ts
decreasing_by all_goals simp_wf <;> omega

/-- Function updatePartsFromRoot of the source: traverse the root, stamp
every mesh, and produce the new ViewerPart list that the component stores. -/
def updatePartsFromRoot (root : Obj3D) : Obj3D × List ViewerPart :=
  match stampList 0 [root] with
  | (roots, parts, _) => (roots.headD root, parts)

/-- Meshes of a node work list in the traverse order of the source: node
first, then its children depth first, then its right siblings. -/
def meshesList : List Obj3D → List Obj3D
  | [] => []
  | Obj3D.mk m nm vis ud mat cs :: rest =>
    (if m then [Obj3D.mk m nm vis ud mat cs] else []) ++ meshesList cs ++ meshesList rest
termination_by ts => sizeOf ts
decreasing_by all_goals simp_wf <;> omega

/-- Number of mesh nodes below (and including) a root. -/
def meshCount (root : Obj3D) : Nat :=
  (meshesList [root]).length

/-- ViewerPart record that updatePartsFromRoot builds for the mesh t at index i. -/
def mkIndexedPart (i : Nat) (t : Obj3D) : ViewerPart :=
  { id := i
    name := jsOrStr (some t.name) ("Parte " ++ toString (i + 1))
    visible := t.visible
    color := getPartColor i
    materialPreset := "plastic"
    notes := "" }

/-- ViewerPart list obtained by numbering a mesh list consecutively from i. -/
def partsSpec : Nat → List Obj3D → List ViewerPart
  | _, [] => []
  | i, t :: ms => mkIndexedPart i t :: partsSpec (i + 1) ms

/-- Stored per-part metadata entry: the four fields a partsMeta record may
carry, each possibly absent (JSON fields are optional). -/
structure PartMetaEntry where
  name : Option String
  notes : Option String
  color : Option String
  materialPreset : Option String
deriving DecidableEq

/-- Function applyProjectPartsMeta of the source, with the partsMeta
mapping of the project passed directly (none models a project without a
partsMeta object, in which case the part list is left untouched). Keys are
strings, as in the JSON store, and the JavaScript lookups meta[p.id] and
meta[String(p.id)] both coerce the key to its string form, so they are one
lookup here. -/
def applyProjectPartsMeta (partsMeta : Option (List (String × PartMetaEntry)))
    (parts : List ViewerPart) : List ViewerPart :=
  match partsMeta with
  | none => parts
  | some meta =>
    parts.map fun p =>
      match assocFind (toString p.id) meta with
      | none => p
      | some m =>
        { p with
          name := jsOrStr m.name p.name
          notes := match m.notes with
                   | some v => v
                   | none => jsOrStr (some p.notes) ""
          color := jsOrStr m.color (jsOrStr (some p.color) "#22c55e")
          materialPreset :=
            jsOrStr m.materialPreset (jsOrStr (some p.materialPreset) "plastic") }

/-- Modelled from the claim wording of the MetaReconciler contract, for
comparison with applyProjectPartsMeta: name, notes, color and
materialPreset are taken from the matching entry, falling back per field to
the existing part value exactly when the field is absent in the entry. -/
def applyPartsMetaClaimed (partsMeta : Option (List (String × PartMetaEntry)))
    (parts : List ViewerPart) : List ViewerPart :=
  match partsMeta with
  | none => parts
  | some meta =>
    parts.map fun p =>
      match assocFind (toString p.id) meta with
      | none => p
      | some m =>
        { p with
          name := m.name.getD p.name
          notes := m.notes.getD p.notes
          color := m.color.getD p.color
          materialPreset := m.materialPreset.getD p.materialPreset }

/-- Minimum of a list of rationals in the manner of a THREE Box3: the box
starts empty (none, minimum y positive infinity) and is expanded point by
point with min. -/
def minY? : List Rat → Option Rat
  | [] => none
  | a :: t => some (t.foldl min a)

/-- Geometry and transform of the single active render object. The models
of the ground-snapping format family (stl) consist of one mesh, whose world
points are its geometry vertices sent through the current Euler rotation
and then translated by the current position. The rotation action Rot
(including the degree-to-radian conversion the rotation effect applies) is
kept abstract, because the snapping property holds for every action. -/
structure RenderModel where
  position : Vec3
  rotation : Vec3
  geometry : List Vec3
deriving DecidableEq

/-- World bounding-box minimum y of the model, as Box3.setFromObject
computes it: minimum over all vertices of the y coordinate of the rotated
vertex plus the object y position; none when the geometry is empty (the
empty box has infinite minimum, which the source detects with isFinite). -/
def worldMinY (Rot : Vec3 → Vec3 → Vec3) (m : RenderModel) : Option Rat :=
  minY? (m.geometry.map (fun v => (Rot m.rotation v).y + m.position.y))

/-- Function snapModelToGround of the source: recompute the world box and,
when its minimum y is finite, shift the object y position down by it. -/
def snapModelToGround (Rot : Vec3 → Vec3 → Vec3) (m : RenderModel) : RenderModel :=
  match worldMinY Rot m with
  | none => m
  | some minY =>
    { m with position := { m.position with y := m.position.y - minY } }

/-- Effect hook of the source on the position state: copy the UI position
into the render object and, when the active model type is stl, snap the
model to the ground. -/
def positionEffect (Rot : Vec3 → Vec3 → Vec3) (modelType : String) (p : Vec3)
    (m : RenderModel) : RenderModel :=
  let m1 := { m with position := p }
  if modelType = "stl" then snapModelToGround Rot m1 else m1

/-- Effect hook of the source on the rotation state: copy the UI rotation
into the render object (the source converts the UI degrees to radians while
doing so, which the abstract action Rot absorbs) and, when the active model
type is stl, snap the model to the ground. -/
def rotationEffect (Rot : Vec3 → Vec3 → Vec3) (modelType : String) (r : Vec3)
    (m : RenderModel) : RenderModel :=
  let m1 := { m with rotation := r }
  if modelType = "stl" then snapModelToGround Rot m1 else m1

/-- Viewer state of the App component that the model-slot life cycle
touches: the active scene root (modelRef), the part list, and the
hasModel / visible / position / rotation states that addRootToScene
resets. Geometry disposal, the camera fit and the selection state are
render-resource effects outside this state. -/
structure ViewerState where
  modelRef : Option Obj3D
  parts : List ViewerPart
  hasModel : Bool
  visible : Bool
  position : Vec3
  rotation : Vec3

/-- Function clearCurrentModel of the source: when no model is active the
function returns early; otherwise the active root is removed and disposed
and the part list is emptied. -/
def clearCurrentModel (s : ViewerState) : ViewerState :=
  match s.modelRef with
  | none => s
  | some _ => { s with modelRef := none, parts := [] }

/-- Function addRootToScene of the source: clear the previous model, attach
the new root as the active model, reset hasModel / visible / position /
rotation, and run updatePartsFromRoot on the new root (centering, ground
snap and camera fit act on geometry and camera outside this state; the
transform itself is covered by the RenderModel embedding). -/
def addRootToScene (root : Obj3D) (s : ViewerState) : ViewerState :=
  let s1 := clearCurrentModel s
  let stamped := updatePartsFromRoot root
  { s1 with
    modelRef := some stamped.1
    parts := stamped.2
    hasModel := true
    visible := true
    position := Vec3.zero
    rotation := Vec3.zero }

/-- Success callback of the format loaders (loadSTL and the other four):
the parsed root is handed to addRootToScene unconditionally — the source
has no staleness, generation or object-URL comparison guard around it. -/
def loadComplete (root : Obj3D) (s : ViewerState) : ViewerState :=
  addRootToScene root s

/-- Runs a sequence of loader completions against the viewer state, in
completion order. -/
def runCompletions (s : ViewerState) : List Obj3D → ViewerState
  | [] => s
  | root :: rest => runCompletions (loadComplete root s) rest

/-- Demonstration mesh named A. -/
def demoMeshA : Obj3D :=
  .mk true "A" true ⟨none, none⟩ ⟨false, "", 0, 0, false, 1, false⟩ []

/-- Demonstration mesh named B. -/
def demoMeshB : Obj3D :=
  .mk true "B" true ⟨none, none⟩ ⟨false, "", 0, 0, false, 1, false⟩ []

/-- Initial viewer state: no model, no parts. -/
def viewerInit : ViewerState :=
  ⟨none, [], false, true, Vec3.zero, Vec3.zero⟩

/-- Uploaded file as multer presents it: the original client file name. -/
structure UploadFile where
  originalname : String
deriving DecidableEq

/-- Stored project record of the server database file. -/
structure Project where
  id : Int
  name : String
  author : String
  date : String
  slug : String
  passwordHash : String
  modelFile : String
  position : Vec3
  rotation : Vec3
  partsMeta : List (String × PartMetaEntry)
  pendingNotes : String
deriving DecidableEq

/-- HTTP outcome of a handler: response status, the ok flag of the JSON
body, and the projectId payload that only a successful create carries. -/
structure HttpRes where
  status : Nat
  ok : Bool
  projectId : Option Int
deriving DecidableEq

/-- Characters after the last dot of a name, none when the name has no
dot. Helper for extname. -/
def extCharsAfterLastDot : List Char → Option (List Char)
  | [] => none
  | c :: rest =>
    match extCharsAfterLastDot rest with
    | some e => some e
    | none => if c = '.' then some rest else none

/-- Extension of a file name in the manner of path.extname: the substring
from the last dot on, empty when there is no dot or when the only dot leads
the base name. -/
def extname (s : String) : String :=
  match s.toList with
  | [] => ""
  | _ :: rest =>
    match extCharsAfterLastDot rest with
    | none => ""
    | some e => String.mk ('.' :: e)

/-- Lower-casing over the character list of a string (extensionally the
library toLower, stated this way so concrete instances evaluate). -/
def strToLower (s : String) : String :=
  String.mk (s.toList.map Char.toLower)

/-- Model file name the server stores: modelo plus the lower-cased
extension of the upload, defaulting to .bin when there is none. -/
def modelFileNameFor (file : UploadFile) : String :=
  let e := extname file.originalname
  let ext := if e = "" then ".bin" else e
  "modelo" ++ strToLower ext

/-- Function findProject of the source: first project whose id printed as a
string equals the route parameter. -/
def findProject (projects : List Project) (id : String) : Option Project :=
  projects.find? (fun p => toString p.id == id)

/-- Fresh id of a create: one plus the maximum stored id, or 1 for an empty
store, as in the source expression with Math.max. -/
def newIdOf (projects : List Project) : Int :=
  match projects with
  | [] => 1
  | p :: rest => (rest.foldl (fun a q => max a q.id) p.id) + 1

/-- Slug of a project: its id, a dash, and the normalized name with the
fallback proyecto for an empty normalization. The normalization pipeline
(NFD fold, lower case, dash squeezing, 40-character cut) is the abstract
parameter slugCore; no verified property depends on its output. -/
def mkSlug (slugCore : String → String) (newId : Int) (name : String) : String :=
  toString newId ++ "-" ++ (if slugCore name = "" then "proyecto" else slugCore name)

/-- Replaces the first project matching the predicate, leaving the rest
unchanged — the server mutates the object returned by find and saves the
whole array. -/
def updateFirst (pred : Project → Bool) (f : Project → Project) :
    List Project → List Project
  | [] => []
  | p :: rest => if pred p then f p :: rest else p :: updateFirst pred f rest

/-- Sets a key of a string-keyed association list, overwriting the first
occurrence in place or appending a new pair, as JavaScript property
assignment does. -/
def assocSet {α : Type} (key : String) (v : α) : List (String × α) → List (String × α)
  | [] => [(key, v)]
  | (k, w) :: rest => if k = key then (k, v) :: rest else (k, w) :: assocSet key v rest

/-- Request body and upload of POST /api/projects. The position, rotation
and partsMeta fields arrive as JSON strings; none models a field that is
absent or fails to parse, which the source replaces by the default. -/
structure CreateReq where
  file : Option UploadFile
  projectName : Option String
  author : Option String
  password : Option String
  date : Option String
  position : Option Vec3
  rotation : Option Vec3
  partsMeta : Option (List (String × PartMetaEntry))

/-- Handler of POST /api/projects: reject when file, name or password is
falsy; otherwise append a new record with the fresh id and answer with it. -/
def createProject (H : String → String) (slugCore : String → String)
    (req : CreateReq) (projects : List Project) : HttpRes × List Project :=
  if req.file.isSome && jsTruthy req.projectName && jsTruthy req.password then
    let newId := newIdOf projects
    let name := req.projectName.getD ""
    let newProject : Project :=
      { id := newId
        name := name
        author := req.author.getD ""
        date := req.date.getD ""
        slug := mkSlug slugCore newId name
        passwordHash := H (req.password.getD "")
        modelFile := modelFileNameFor (req.file.getD ⟨""⟩)
        position := req.position.getD Vec3.zero
        rotation := req.rotation.getD Vec3.zero
        partsMeta := req.partsMeta.getD []
        pendingNotes := "" }
    (⟨200, true, some newId⟩, projects ++ [newProject])
  else
    (⟨400, false, none⟩, projects)

/-- Request of PUT /api/projects/:id/model: the route parameter and the
upload. The handler reads no password. -/
structure ModelReq where
  id : String
  file : Option UploadFile

/-- Handler of PUT /api/projects/:id/model: 400 without a file, 404 when
the id matches no project, otherwise replace the stored model file name. -/
def putModel (req : ModelReq) (projects : List Project) : HttpRes × List Project :=
  match req.file with
  | none => (⟨400, false, none⟩, projects)
  | some file =>
    match findProject projects req.id with
    | none => (⟨404, false, none⟩, projects)
    | some _ =>
      (⟨200, true, none⟩,
        updateFirst (fun p => toString p.id == req.id)
          (fun p => { p with modelFile := modelFileNameFor file }) projects)

/-- Request body of PUT /api/projects/:id/transform. -/
structure TransformReq where
  id : String
  position : Option Vec3
  rotation : Option Vec3
  password : Option String

/-- Handler of PUT /api/projects/:id/transform: 400 on a falsy password,
404 when the id matches no project, 403 when the password hash differs,
otherwise store the new transform (defaulting falsy fields to zero). -/
def putTransform (H : String → String) (req : TransformReq)
    (projects : List Project) : HttpRes × List Project :=
  if jsTruthy req.password = false then
    (⟨400, false, none⟩, projects)
  else
    match findProject projects req.id with
    | none => (⟨404, false, none⟩, projects)
    | some project =>
      if H (req.password.getD "") ≠ project.passwordHash then
        (⟨403, false, none⟩, projects)
      else
        (⟨200, true, none⟩,
          updateFirst (fun p => toString p.id == req.id)
            (fun p => { p with
              position := req.position.getD Vec3.zero
              rotation := req.rotation.getD Vec3.zero }) projects)

/-- Request body of PUT /api/projects/:id/rename. -/
structure RenameReq where
  id : String
  name : Option String
  password : Option String

/-- Handler of PUT /api/projects/:id/rename: 400 when name or password is
falsy, 404 when the id matches no project, 403 on a wrong password,
otherwise store the new name and the recomputed slug. -/
def putRename (H : String → String) (slugCore : String → String)
    (req : RenameReq) (projects : List Project) : HttpRes × List Project :=
  if (jsTruthy req.name && jsTruthy req.password) = false then
    (⟨400, false, none⟩, projects)
  else
    match findProject projects req.id with
    | none => (⟨404, false, none⟩, projects)
    | some project =>
      if H (req.password.getD "") ≠ project.passwordHash then
        (⟨403, false, none⟩, projects)
      else
        (⟨200, true, none⟩,
          updateFirst (fun p => toString p.id == req.id)
            (fun p => { p with
              name := req.name.getD ""
              slug := mkSlug slugCore p.id (req.name.getD "") }) projects)

/-- Request body of PUT /api/projects/:id/notes. -/
structure NotesReq where
  id : String
  notes : Option String
  password : Option String

/-- Handler of PUT /api/projects/:id/notes: 400 on a falsy password, 404
when the id matches no project, 403 on a wrong password, otherwise store
the pending notes (falsy notes become the empty string). -/
def putNotes (H : String → String) (req : NotesReq)
    (projects : List Project) : HttpRes × List Project :=
  if jsTruthy req.password = false then
    (⟨400, false, none⟩, projects)
  else
    match findProject projects req.id with
    | none => (⟨404, false, none⟩, projects)
    | some project =>
      if H (req.password.getD "") ≠ project.passwordHash then
        (⟨403, false, none⟩, projects)
      else
        (⟨200, true, none⟩,
          updateFirst (fun p => toString p.id == req.id)
            (fun p => { p with pendingNotes := jsOrStr req.notes "" }) projects)

/-- Request body of PUT /api/projects/:id/parts-meta. The partId arrives as
JSON; none models the undefined value the handler rejects. -/
structure PartsMetaReq where
  id : String
  partId : Option Int
  name : Option String
  notes : Option String
  color : Option String
  materialPreset : Option String
  password : Option String

/-- Merged entry the parts-meta handler stores: each field takes the
supplied value when it is defined, otherwise the previously stored value
when that is truthy (present and non-empty), otherwise the field default. -/
def mergedPartsMetaEntry (req : PartsMetaReq) (prev : PartMetaEntry) : PartMetaEntry :=
  { name := some (match req.name with
                  | some v => v
                  | none => jsOrStr prev.name "")
    notes := some (match req.notes with
                   | some v => v
                   | none => jsOrStr prev.notes "")
    color := some (match req.color with
                   | some v => v
                   | none => jsOrStr prev.color "#22c55e")
    materialPreset := some (match req.materialPreset with
                            | some v => v
                            | none => jsOrStr prev.materialPreset "plastic") }

/-- Handler of PUT /api/projects/:id/parts-meta: 400 when partId is
undefined, 400 on a falsy password, 404 when the id matches no project, 403
on a wrong password; otherwise merge the entry under the string form of
partId and store it. -/
def putPartsMeta (H : String → String) (req : PartsMetaReq)
    (projects : List Project) : HttpRes × List Project :=
  match req.partId with
  | none => (⟨400, false, none⟩, projects)
  | some partId =>
    if jsTruthy req.password = false then
      (⟨400, false, none⟩, projects)
    else
      match findProject projects req.id with
      | none => (⟨404, false, none⟩, projects)
      | some project =>
        if H (req.password.getD "") ≠ project.passwordHash then
          (⟨403, false, none⟩, projects)
        else
          let key := toString partId
          let prev := (assocFind key project.partsMeta).getD ⟨none, none, none, none⟩
          let entry := mergedPartsMetaEntry req prev
          (⟨200, true, none⟩,
            updateFirst (fun p => toString p.id == req.id)
              (fun p => { p with partsMeta := assocSet key entry p.partsMeta })
              projects)

/-- Request body of DELETE /api/projects/:id. -/
structure DeleteReq where
  id : String
  password : Option String

/-- Handler of DELETE /api/projects/:id: 400 on a falsy password, 404 when
the id matches no project, 403 on a wrong password, otherwise splice the
record out of the store. -/
def deleteProject (H : String → String) (req : DeleteReq)
    (projects : List Project) : HttpRes × List Project :=
  if jsTruthy req.password = false then
    (⟨400, false, none⟩, projects)
  else
    match projects.findIdx? (fun p => toString p.id == req.id) with
    | none => (⟨404, false, none⟩, projects)
    | some idx =>
      match projects[idx]? with
      | none => (⟨404, false, none⟩, projects)
      | some project =>
        if H (req.password.getD "") ≠ project.passwordHash then
          (⟨403, false, none⟩, projects)
        else
          (⟨200, true, none⟩, projects.eraseIdx idx)

/-- One request to any of the seven mutating endpoints of the store. -/
inductive MutReq where
  | create (r : CreateReq)
  | model (r : ModelReq)
  | transform (r : TransformReq)
  | rename (r : RenameReq)
  | notes (r : NotesReq)
  | partsMeta (r : PartsMetaReq)
  | del (r : DeleteReq)

/-- Password a mutating request carries; the replace-model route reads
none at all. -/
def reqPassword : MutReq → Option String
  | .create r => r.password
  | .model _ => none
  | .transform r => r.password
  | .rename r => r.password
  | .notes r => r.password
  | .partsMeta r => r.password
  | .del r => r.password

/-- Whether a mutating request targets the replace-model route. -/
def isModelReq : MutReq → Bool
  | .model _ => true
  | _ => false

/-- Dispatch of a mutating request to its handler. -/
def mutatingCall (H : String → String) (slugCore : String → String) :
    MutReq → List Project → HttpRes × List Project
  | .create r, ps => createProject H slugCore r ps
  | .model r, ps => putModel r ps
  | .transform r, ps => putTransform H r ps
  | .rename r, ps => putRename H slugCore r ps
  | .notes r, ps => putNotes H r ps
  | .partsMeta r, ps => putPartsMeta H r ps
  | .del r, ps => deleteProject H r ps

/-- Stored demonstration project guarded by the password hash pw. -/
def demoProject : Project :=
  ⟨1, "Demo", "", "", "1-demo", "pw", "modelo.obj", Vec3.zero, Vec3.zero, [], ""⟩

/-- Stored demonstration project whose partsMeta entry 0 holds an empty
color string. -/
def metaProject : Project :=
  ⟨1, "Demo", "", "", "1-demo", "pw", "modelo.stl", Vec3.zero, Vec3.zero,
   [("0", ⟨some "n", some "t", some "", some "m"⟩)], ""⟩

/-- Merge rule as the claim words it: the supplied value when defined,
otherwise the previously stored value, otherwise the default. For
comparison with the handler merge. -/
def claimedMergeField (supplied prev : Option String) (dflt : String) : String :=
  match supplied with
  | some v => v
  | none =>
    match prev with
    | some v => v
    | none => dflt

theorem partsSpec_append (i : Nat) (A B : List Obj3D) :
    partsSpec i (A ++ B) = partsSpec i A ++ partsSpec (i + A.length) B := by
  induction A generalizing i with
  | nil => simp [partsSpec]
  | cons t ms ih =>
    simp only [List.cons_append, partsSpec, ih, List.length_cons, List.cons.injEq, true_and,
      List.append_eq]
    rw [show i + (ms.length + 1) = i + 1 + ms.length by omega]

theorem partsSpec_length (i : Nat) (ms : List Obj3D) :
    (partsSpec i ms).length = ms.length := by
  induction ms generalizing i with
  | nil => simp [partsSpec]
  | cons t ms ih => simp [partsSpec, ih]

theorem partsSpec_map_id (i : Nat) (ms : List Obj3D) :
    (partsSpec i ms).map ViewerPart.id = List.range' i ms.length := by
  induction ms generalizing i with
  | nil => simp [partsSpec]
  | cons t ms ih => simp [partsSpec, ih, mkIndexedPart, List.range']

theorem partsSpec_getElem? (j k : Nat) (ms : List Obj3D) :
    (partsSpec j ms)[k]? = ms[k]?.map (fun t => mkIndexedPart (j + k) t) := by
  induction ms generalizing j k with
  | nil => simp [partsSpec]
  | cons t ms ih =>
    cases k with
    | zero => simp [partsSpec]
    | succ k =>
      simp only [partsSpec, List.getElem?_cons_succ, ih]
      rw [show j + (k + 1) = j + 1 + k by omega]

theorem stampList_parts (i : Nat) (ts : List Obj3D) :
    (stampList i ts).2.1 = partsSpec i (meshesList ts) ∧
    (stampList i ts).2.2 = i + (meshesList ts).length := by
  induction i, ts using stampList.induct with
  | case1 i => simp [stampList, meshesList, partsSpec]
  | case2 i nm vis ud mat cs rest cs1 ps1 i2 hcs rest1 ps2 i3 hrest ihc ihr =>
    obtain ⟨ihc1, ihc2⟩ := ihc
    obtain ⟨ihr1, ihr2⟩ := ihr
    rw [hcs] at ihc1 ihc2
    rw [hrest] at ihr1 ihr2
    simp only at ihc1 ihc2 ihr1 ihr2
    subst ihc2
    simp [stampList, hcs, hrest, meshesList, partsSpec, partsSpec_append,
      mkIndexedPart, Obj3D.name, Obj3D.visible, ihc1, ihr1, ihr2]
    omega
  | case3 i m nm vis ud mat cs rest hm cs1 ps1 i2 hcs rest1 ps2 i3 hrest ihc ihr =>
    obtain ⟨ihc1, ihc2⟩ := ihc
    obtain ⟨ihr1, ihr2⟩ := ihr
    rw [hcs] at ihc1 ihc2
    rw [hrest] at ihr1 ihr2
    simp only at ihc1 ihc2 ihr1 ihr2
    subst ihc2
    simp [stampList, hcs, hrest, meshesList, hm, partsSpec_append, ihc1, ihr1, ihr2]
    omega

theorem stampList_tree_length (i : Nat) (ts : List Obj3D) :
    (stampList i ts).1.length = ts.length := by
  induction i, ts using stampList.induct with
  | case1 i => simp [stampList]
  | case2 i nm vis ud mat cs rest cs1 ps1 i2 hcs rest1 ps2 i3 hrest ihc ihr =>
    rw [hrest] at ihr
    simp only at ihr
    simp [stampList, hcs, hrest, ihr]
  | case3 i m nm vis ud mat cs rest hm cs1 ps1 i2 hcs rest1 ps2 i3 hrest ihc ihr =>
    rw [hrest] at ihr
    simp only at ihr
    simp [stampList, hcs, hrest, hm, ihr]

theorem getPartColor_ne_empty (i : Nat) : getPartColor i ≠ "" := by
  intro h
  have hm : getPartColor i ∈ PART_COLORS := by
    unfold getPartColor; exact List.get_mem _ _ _
  rw [h] at hm
  simp [PART_COLORS] at hm

theorem stampList_idem (i : Nat) (ts : List Obj3D) :
    stampList i (stampList i ts).1 = stampList i ts := by
  induction i, ts using stampList.induct with
  | case1 i => simp [stampList]
  | case2 i nm vis ud mat cs rest cs1 ps1 i2 hcs rest1 ps2 i3 hrest ihc ihr =>
    rw [hcs] at ihc
    rw [hrest] at ihr
    simp only at ihc ihr
    have hne := getPartColor_ne_empty i
    by_cases h : mat.isMeshPhongMaterial = false <;>
      simp [stampList, hcs, hrest, ihc, ihr, createMaterialForPart, assocFind,
        MATERIAL_PRESETS, jsOrStr, hne, h]
  | case3 i m nm vis ud mat cs rest hm cs1 ps1 i2 hcs rest1 ps2 i3 hrest ihc ihr =>
    rw [hcs] at ihc
    rw [hrest] at ihr
    simp only at ihc ihr
    simp [stampList, hm, hcs, hrest, ihc, ihr]

theorem updatePartsFromRoot_snd (root : Obj3D) :
    (updatePartsFromRoot root).2 = (stampList 0 [root]).2.1 := by
  unfold updatePartsFromRoot
  rcases stampList 0 [root] with ⟨ts, ps, n⟩
  rfl

/-- C4: on a SceneRoot with exactly meshCount root mesh nodes, the part
indexer produces exactly that many ViewerPart records, their ids are the
dense integers 0..M-1 in order, each id appears exactly once, and the
records are assigned in the order of the single depth-first traversal
meshesList. -/
theorem updatePartsFromRoot_ids_dense (root : Obj3D) :
    (updatePartsFromRoot root).2.length = meshCount root ∧
    (updatePartsFromRoot root).2.map ViewerPart.id = List.range (meshCount root) ∧
    ((updatePartsFromRoot root).2.map ViewerPart.id).Nodup ∧
    (updatePartsFromRoot root).2 = partsSpec 0 (meshesList [root]) := by
  rw [updatePartsFromRoot_snd, (stampList_parts 0 [root]).1]
  refine ⟨partsSpec_length 0 _, ?_, ?_, rfl⟩
  · rw [partsSpec_map_id, ← List.range_eq_range']
    rfl
  · rw [partsSpec_map_id, ← List.range_eq_range']
    exact List.nodup_range _

/-- C7: running the part indexer a second time on the tree stamped by the
first run reproduces the first run exactly: the same stamped tree and the
same ViewerPart list (in particular the same ids in the same order). -/
theorem updatePartsFromRoot_idempotent (root : Obj3D) :
    updatePartsFromRoot (updatePartsFromRoot root).1 = updatePartsFromRoot root := by
  have hlen := stampList_tree_length 0 [root]
  have hidem := stampList_idem 0 [root]
  rcases h : stampList 0 [root] with ⟨ts, ps, n⟩
  rw [h] at hlen hidem
  simp only [List.length_singleton] at hlen
  obtain ⟨r2, hr⟩ : ∃ r2, ts = [r2] := by
    cases ts with
    | nil => simp at hlen
    | cons a t =>
      cases t with
      | nil => exact ⟨a, rfl⟩
      | cons b t2 => simp at hlen
  subst hr
  simp only at hidem
  simp [updatePartsFromRoot, h, hidem]

/-- C8: a freshly indexed part at position i carries id i, the name of the
i-th traversed mesh when that name is non-empty and the string Parte (i+1)
otherwise, the palette color of index i mod 8, the plastic preset, and
empty notes. -/
theorem fresh_part_defaults (root : Obj3D) (i : Nat) (p : ViewerPart) (t : Obj3D)
    (hp : (updatePartsFromRoot root).2[i]? = some p)
    (ht : (meshesList [root])[i]? = some t) :
    p.id = i ∧
    p.name = (if t.name = "" then "Parte " ++ toString (i + 1) else t.name) ∧
    p.color = getPartColor i ∧
    p.materialPreset = "plastic" ∧
    p.notes = "" := by
  rw [updatePartsFromRoot_snd, (stampList_parts 0 [root]).1, partsSpec_getElem?, ht] at hp
  rw [Option.map_some', Option.some_inj] at hp
  rw [Nat.zero_add] at hp
  subst hp
  simp [mkIndexedPart, jsOrStr]

/-- Closed witness for fresh_part_defaults: a one-mesh scene named base. -/
theorem fresh_part_defaults_witness :
    (⟨0, "base", true, "#f97316", "plastic", ""⟩ : ViewerPart).id = 0 ∧
    (⟨0, "base", true, "#f97316", "plastic", ""⟩ : ViewerPart).name =
      (if (Obj3D.mk true "base" true ⟨none, none⟩
            ⟨false, "", 0, 0, false, 1, false⟩ []).name = ""
       then "Parte " ++ toString (0 + 1)
       else (Obj3D.mk true "base" true ⟨none, none⟩
            ⟨false, "", 0, 0, false, 1, false⟩ []).name) ∧
    (⟨0, "base", true, "#f97316", "plastic", ""⟩ : ViewerPart).color = getPartColor 0 ∧
    (⟨0, "base", true, "#f97316", "plastic", ""⟩ : ViewerPart).materialPreset = "plastic" ∧
    (⟨0, "base", true, "#f97316", "plastic", ""⟩ : ViewerPart).notes = "" :=
  fresh_part_defaults
    (Obj3D.mk true "base" true ⟨none, none⟩ ⟨false, "", 0, 0, false, 1, false⟩ [])
    0 ⟨0, "base", true, "#f97316", "plastic", ""⟩
    (Obj3D.mk true "base" true ⟨none, none⟩ ⟨false, "", 0, 0, false, 1, false⟩ [])
    (by simp [updatePartsFromRoot, stampList, getPartColor, PART_COLORS, jsOrStr,
      createMaterialForPart, assocFind, MATERIAL_PRESETS, plasticPreset])
    (by simp [meshesList])

/-- Counterexample to C3 as stated: an entry whose name field is present
but empty. The source expression m.name OR p.name falls back to the part
name on any falsy value, so the empty string stored in the entry is not
applied, while the claimed fall-back-exactly-when-absent rule would apply
it. -/
theorem applyProjectPartsMeta_claimed_cex :
    applyProjectPartsMeta (some [("0", ⟨some "", none, none, none⟩)])
        [⟨0, "X", true, "#f97316", "plastic", ""⟩] ≠
      applyPartsMetaClaimed (some [("0", ⟨some "", none, none, none⟩)])
        [⟨0, "X", true, "#f97316", "plastic", ""⟩] := by
  decide

theorem jsOrStr_some_empty (s : String) : jsOrStr (some s) "" = s := by
  by_cases h : s = "" <;> simp [jsOrStr, h]

/-- C3 amended: the reconciler preserves the length of the part list; a
part with no entry under the string form of its id passes through
unchanged; a part with an entry gets name, color and materialPreset from
the entry when the entry value is present and non-empty — falling back to
the existing part value otherwise, with color and materialPreset further
defaulting when the part value is itself empty — and notes from the entry
exactly when present. The input list is not mutated: the result is a fresh
map over it. -/
theorem applyProjectPartsMeta_merge (meta : List (String × PartMetaEntry))
    (parts : List ViewerPart) :
    (applyProjectPartsMeta (some meta) parts).length = parts.length ∧
    (∀ (i : Nat) (p : ViewerPart), parts[i]? = some p →
      (assocFind (toString p.id) meta = none →
        (applyProjectPartsMeta (some meta) parts)[i]? = some p) ∧
      (∀ m, assocFind (toString p.id) meta = some m →
        (applyProjectPartsMeta (some meta) parts)[i]? = some
          { p with
            name := jsOrStr m.name p.name
            notes := m.notes.getD p.notes
            color := jsOrStr m.color (jsOrStr (some p.color) "#22c55e")
            materialPreset :=
              jsOrStr m.materialPreset (jsOrStr (some p.materialPreset) "plastic") })) := by
  refine ⟨by simp [applyProjectPartsMeta], ?_⟩
  intro i p hp
  constructor
  · intro hnone
    simp [applyProjectPartsMeta, hp, hnone]
  · intro m hm
    simp [applyProjectPartsMeta, hp, hm]
    cases hn : m.notes with
    | none => simp [jsOrStr_some_empty]
    | some v => simp

/-- Closed witness for applyProjectPartsMeta_merge: two parts, one entry
keyed by the string form of id 1. -/
theorem applyProjectPartsMeta_merge_witness :
    (applyProjectPartsMeta
        (some [("1", ⟨some "N", some "nn", some "#ff0000", some "metal"⟩)])
        [⟨0, "A", true, "#f97316", "plastic", ""⟩,
         ⟨1, "B", true, "#22c55e", "plastic", ""⟩]).length = 2 ∧
    (applyProjectPartsMeta
        (some [("1", ⟨some "N", some "nn", some "#ff0000", some "metal"⟩)])
        [⟨0, "A", true, "#f97316", "plastic", ""⟩,
         ⟨1, "B", true, "#22c55e", "plastic", ""⟩])[0]? =
      some ⟨0, "A", true, "#f97316", "plastic", ""⟩ ∧
    (applyProjectPartsMeta
        (some [("1", ⟨some "N", some "nn", some "#ff0000", some "metal"⟩)])
        [⟨0, "A", true, "#f97316", "plastic", ""⟩,
         ⟨1, "B", true, "#22c55e", "plastic", ""⟩])[1]? =
      some ⟨1, "N", true, "#ff0000", "metal", "nn"⟩ := by
  have h := applyProjectPartsMeta_merge
    [("1", ⟨some "N", some "nn", some "#ff0000", some "metal"⟩)]
    [⟨0, "A", true, "#f97316", "plastic", ""⟩,
     ⟨1, "B", true, "#22c55e", "plastic", ""⟩]
  refine ⟨h.1, ?_, ?_⟩
  · exact (h.2 0 ⟨0, "A", true, "#f97316", "plastic", ""⟩ (by decide)).1 (by decide)
  · have := (h.2 1 ⟨1, "B", true, "#22c55e", "plastic", ""⟩ (by decide)).2
      ⟨some "N", some "nn", some "#ff0000", some "metal"⟩ (by decide)
    rw [this]
    decide

theorem foldl_min_add (t : List Rat) (a c : Rat) :
    (t.map (fun x => x + c)).foldl min (a + c) = t.foldl min a + c := by
  induction t generalizing a with
  | nil => rfl
  | cons b t ih => simp only [List.map_cons, List.foldl_cons, min_add_add_right, ih]

theorem minY?_map_add (l : List Rat) (c : Rat) :
    minY? (l.map (fun x => x + c)) = (minY? l).map (fun x => x + c) := by
  cases l with
  | nil => rfl
  | cons a t => simp only [List.map_cons, minY?, foldl_min_add, Option.map_some']

theorem worldMinY_decompose (Rot : Vec3 → Vec3 → Vec3) (m : RenderModel) :
    worldMinY Rot m =
      (minY? (m.geometry.map (fun v => (Rot m.rotation v).y))).map
        (fun q => q + m.position.y) := by
  unfold worldMinY
  rw [show (fun v => (Rot m.rotation v).y + m.position.y) =
        ((fun q => q + m.position.y) ∘ (fun v => (Rot m.rotation v).y)) from rfl]
  rw [← List.map_map, minY?_map_add]

theorem worldMinY_snapModelToGround (Rot : Vec3 → Vec3 → Vec3) (m : RenderModel)
    (h : m.geometry ≠ []) :
    worldMinY Rot (snapModelToGround Rot m) = some 0 := by
  obtain ⟨q, hq⟩ : ∃ q, minY? (m.geometry.map (fun v => (Rot m.rotation v).y)) = some q := by
    rcases hg : m.geometry with _ | ⟨a, t⟩
    · exact absurd hg h
    · exact ⟨_, rfl⟩
  have h1 : worldMinY Rot m = some (q + m.position.y) := by
    rw [worldMinY_decompose, hq]; rfl
  unfold snapModelToGround
  rw [h1]
  rw [worldMinY_decompose]
  simp only
  rw [hq]
  simp only [Option.map_some', Option.some_inj]
  ring

/-- C5: on a model of the ground-snapping format family (stl) with finite
(non-empty) geometry, the position effect and the rotation effect of the
source each end with a re-snap, so after every position change and after
every rotation change the minimum y of the world bounding box is exactly 0,
for every rotation action and every starting transform. -/
theorem transformEffects_ground_snap (Rot : Vec3 → Vec3 → Vec3) (fmt : String)
    (m : RenderModel) (p r : Vec3) (hfmt : fmt = "stl") (hg : m.geometry ≠ []) :
    worldMinY Rot (positionEffect Rot fmt p m) = some 0 ∧
    worldMinY Rot (rotationEffect Rot fmt r m) = some 0 := by
  subst hfmt
  refine ⟨?_, ?_⟩
  · unfold positionEffect
    simp only [if_pos rfl]
    exact worldMinY_snapModelToGround Rot _ hg
  · unfold rotationEffect
    simp only [if_pos rfl]
    exact worldMinY_snapModelToGround Rot _ hg

/-- Closed witness for transformEffects_ground_snap: the identity rotation
action on a single raised vertex. -/
theorem transformEffects_ground_snap_witness :
    worldMinY (fun _ v => v)
      (positionEffect (fun _ v => v) "stl" ⟨1, 2, 3⟩
        ⟨⟨0, 0, 0⟩, ⟨0, 0, 0⟩, [⟨0, 5, 0⟩]⟩) = some 0 ∧
    worldMinY (fun _ v => v)
      (rotationEffect (fun _ v => v) "stl" ⟨4, 5, 6⟩
        ⟨⟨0, 0, 0⟩, ⟨0, 0, 0⟩, [⟨0, 5, 0⟩]⟩) = some 0 :=
  transformEffects_ground_snap (fun _ v => v) "stl"
    ⟨⟨0, 0, 0⟩, ⟨0, 0, 0⟩, [⟨0, 5, 0⟩]⟩ ⟨1, 2, 3⟩ ⟨4, 5, 6⟩ rfl (by decide)

/-- Counterexample to C1 as stated: load A completes after load B, and the
late completion of A does alter the part list (and active root) that B
established, because the completion callbacks carry no staleness check.
Here B completes first with its one mesh named B, then the stale A
completion replaces it with the part list of A. -/
theorem load_supersession_cex :
    (runCompletions viewerInit [demoMeshB, demoMeshA]).parts ≠
      (loadComplete demoMeshB viewerInit).parts := by
  simp [runCompletions, loadComplete, addRootToScene, clearCurrentModel,
    viewerInit, demoMeshA, demoMeshB, updatePartsFromRoot, stampList,
    getPartColor, PART_COLORS, jsOrStr, createMaterialForPart, assocFind,
    MATERIAL_PRESETS, plasticPreset]

theorem addRootToScene_const (root : Obj3D) (s s2 : ViewerState) :
    addRootToScene root s = addRootToScene root s2 := rfl

/-- C1 amended: the later completion of the superseded load A is applied,
not suppressed — it unconditionally replaces the active SceneRoot and part
list that B established, leaving exactly the state a single completion of A
would have produced (last completion wins, regardless of the prior state). -/
theorem load_supersession_last_wins (s : ViewerState) (rootA rootB : Obj3D) :
    runCompletions s [rootB, rootA] = addRootToScene rootA s ∧
    (runCompletions s [rootB, rootA]).modelRef =
      some (updatePartsFromRoot rootA).1 ∧
    (runCompletions s [rootB, rootA]).parts = (updatePartsFromRoot rootA).2 := by
  refine ⟨?_, ?_, ?_⟩ <;>
    simp [runCompletions, loadComplete, addRootToScene, clearCurrentModel]

/-- Counterexample to C2 as stated: a replace-model request carries no
password (the route reads none), yet it succeeds with status 200 and
changes the stored record — the model file name switches from modelo.obj
to modelo.stl. -/
theorem putModel_no_password_mutates_cex :
    reqPassword (.model ⟨"1", some ⟨"part.stl"⟩⟩) = none ∧
    (mutatingCall (fun s => s) (fun s => s) (.model ⟨"1", some ⟨"part.stl"⟩⟩)
        [demoProject]).1.status = 200 ∧
    (mutatingCall (fun s => s) (fun s => s) (.model ⟨"1", some ⟨"part.stl"⟩⟩)
        [demoProject]).1.ok = true ∧
    (mutatingCall (fun s => s) (fun s => s) (.model ⟨"1", some ⟨"part.stl"⟩⟩)
        [demoProject]).2 ≠ [demoProject] := by
  decide

/-- C2 amended: every mutating endpoint except replace-model rejects a
request whose password is falsy (missing or empty) with status 400, ok
false, and an unchanged store; the replace-model route reads no password at
all. -/
theorem mutating_requires_password_except_model (H slugCore : String → String)
    (req : MutReq) (projects : List Project)
    (hnm : isModelReq req = false)
    (hpw : jsTruthy (reqPassword req) = false) :
    (mutatingCall H slugCore req projects).1.status = 400 ∧
    (mutatingCall H slugCore req projects).1.ok = false ∧
    (mutatingCall H slugCore req projects).2 = projects := by
  cases req with
  | create r =>
    simp only [reqPassword] at hpw
    simp [mutatingCall, createProject, hpw]
  | model r => simp [isModelReq] at hnm
  | transform r =>
    simp only [reqPassword] at hpw
    simp [mutatingCall, putTransform, hpw]
  | rename r =>
    simp only [reqPassword] at hpw
    simp [mutatingCall, putRename, hpw]
  | notes r =>
    simp only [reqPassword] at hpw
    simp [mutatingCall, putNotes, hpw]
  | partsMeta r =>
    simp only [reqPassword] at hpw
    cases h : r.partId with
    | none => simp [mutatingCall, putPartsMeta, h]
    | some pid => simp [mutatingCall, putPartsMeta, h, hpw]
  | del r =>
    simp only [reqPassword] at hpw
    simp [mutatingCall, deleteProject, hpw]

/-- Closed witness for mutating_requires_password_except_model: a
password-less transform update against the empty store. -/
theorem mutating_requires_password_except_model_witness :
    (mutatingCall (fun s => s) (fun s => s)
        (.transform ⟨"1", none, none, none⟩) []).1.status = 400 ∧
    (mutatingCall (fun s => s) (fun s => s)
        (.transform ⟨"1", none, none, none⟩) []).1.ok = false ∧
    (mutatingCall (fun s => s) (fun s => s)
        (.transform ⟨"1", none, none, none⟩) []).2 = [] :=
  mutating_requires_password_except_model (fun s => s) (fun s => s)
    (.transform ⟨"1", none, none, none⟩) [] rfl rfl

/-- C6: the transform endpoint answers 400 to a falsy password, 404 when
the id matches no project (password present), and 403 when the hash of the
supplied password differs from the stored one; in each failure case the
store — in particular the position and rotation of every project — is
returned unchanged. -/
theorem putTransform_error_handling (H : String → String) (req : TransformReq)
    (projects : List Project) :
    (jsTruthy req.password = false →
      (putTransform H req projects).1.status = 400 ∧
      (putTransform H req projects).1.ok = false ∧
      (putTransform H req projects).2 = projects) ∧
    (jsTruthy req.password = true →
      findProject projects req.id = none →
      (putTransform H req projects).1.status = 404 ∧
      (putTransform H req projects).1.ok = false ∧
      (putTransform H req projects).2 = projects) ∧
    (∀ project, jsTruthy req.password = true →
      findProject projects req.id = some project →
      H (req.password.getD "") ≠ project.passwordHash →
      (putTransform H req projects).1.status = 403 ∧
      (putTransform H req projects).1.ok = false ∧
      (putTransform H req projects).2 = projects) := by
  refine ⟨?_, ?_, ?_⟩
  · intro h
    simp [putTransform, h]
  · intro h hf
    simp [putTransform, h, hf]
  · intro project h hf hw
    simp [putTransform, h, hf, hw]

/-- Closed witness for putTransform_error_handling: a wrong password on the
stored demonstration project hits the 403 branch and changes nothing. -/
theorem putTransform_error_handling_witness :
    (putTransform (fun s => s) ⟨"1", none, none, some "wrong"⟩
        [demoProject]).1.status = 403 ∧
    (putTransform (fun s => s) ⟨"1", none, none, some "wrong"⟩
        [demoProject]).1.ok = false ∧
    (putTransform (fun s => s) ⟨"1", none, none, some "wrong"⟩
        [demoProject]).2 = [demoProject] :=
  (putTransform_error_handling (fun s => s) ⟨"1", none, none, some "wrong"⟩
      [demoProject]).2.2 demoProject (by decide) (by decide) (by decide)

theorem foldl_max_le_init (l : List Project) (a : Int) :
    a ≤ l.foldl (fun acc q => max acc q.id) a := by
  induction l generalizing a with
  | nil => simp
  | cons q t ih => exact le_trans (le_max_left _ _) (ih (max a q.id))

theorem mem_le_foldl_max (l : List Project) (a : Int) (p : Project) :
    p ∈ l → p.id ≤ l.foldl (fun acc q => max acc q.id) a := by
  induction l generalizing a with
  | nil => intro hp; cases hp
  | cons q t ih =>
    intro hp
    rcases List.mem_cons.mp hp with h | h
    · subst h
      exact le_trans (le_max_right _ _) (foldl_max_le_init t _)
    · exact ih _ h

theorem newIdOf_gt (projects : List Project) (p : Project) (hp : p ∈ projects) :
    p.id < newIdOf projects := by
  cases projects with
  | nil => cases hp
  | cons q t =>
    simp only [newIdOf]
    rcases List.mem_cons.mp hp with h | h
    · subst h
      have := foldl_max_le_init t p.id
      omega
    · have := mem_le_foldl_max t q.id p h
      omega

theorem deleteProject_sublist (H : String → String) (req : DeleteReq)
    (projects : List Project) :
    (deleteProject H req projects).2.Sublist projects := by
  unfold deleteProject
  split
  · exact List.Sublist.refl _
  · split
    · exact List.Sublist.refl _
    · split
      · exact List.Sublist.refl _
      · split
        · exact List.Sublist.refl _
        · exact List.eraseIdx_sublist _ _

/-- C9: a successful create answers with projectId equal to one plus the
maximum stored id (1 on an empty store), which is strictly greater than
every stored id, and appends the record; hence pairwise-distinct project
ids are preserved by create, and also by delete, which only removes a
record. -/
theorem project_id_uniqueness (H slugCore : String → String)
    (req : CreateReq) (dreq : DeleteReq) (projects : List Project)
    (hok : (req.file.isSome && jsTruthy req.projectName && jsTruthy req.password) = true) :
    newIdOf ([] : List Project) = 1 ∧
    (createProject H slugCore req projects).1.ok = true ∧
    (createProject H slugCore req projects).1.projectId = some (newIdOf projects) ∧
    (createProject H slugCore req projects).2.map Project.id =
      projects.map Project.id ++ [newIdOf projects] ∧
    (∀ p ∈ projects, p.id < newIdOf projects) ∧
    (List.Pairwise (fun a b => a.id ≠ b.id) projects →
      List.Pairwise (fun a b => a.id ≠ b.id) (createProject H slugCore req projects).2) ∧
    (List.Pairwise (fun a b => a.id ≠ b.id) projects →
      List.Pairwise (fun a b => a.id ≠ b.id) (deleteProject H dreq projects).2) := by
  refine ⟨rfl, ?_, ?_, ?_, ?_, ?_, ?_⟩
  · simp [createProject, hok]
  · simp [createProject, hok]
  · simp [createProject, hok]
  · intro p hp
    exact newIdOf_gt projects p hp
  · intro hdist
    simp only [createProject, hok, if_pos]
    rw [List.pairwise_append]
    refine ⟨hdist, List.pairwise_singleton _ _, ?_⟩
    intro a ha b hb
    simp only [List.mem_singleton] at hb
    subst hb
    exact ne_of_lt (newIdOf_gt projects a ha)
  · intro hdist
    exact hdist.sublist (deleteProject_sublist H dreq projects)

/-- Closed witness for project_id_uniqueness: creating over a store holding
the id-1 demonstration project yields id 2 appended after it. -/
theorem project_id_uniqueness_witness :
    (createProject (fun s => s) (fun s => s)
        ⟨some ⟨"m.stl"⟩, some "P", none, some "pw", none, none, none, none⟩
        [demoProject]).1.projectId = some 2 ∧
    (createProject (fun s => s) (fun s => s)
        ⟨some ⟨"m.stl"⟩, some "P", none, some "pw", none, none, none, none⟩
        [demoProject]).2.map Project.id = [1, 2] := by
  have h := project_id_uniqueness (fun s => s) (fun s => s)
    ⟨some ⟨"m.stl"⟩, some "P", none, some "pw", none, none, none, none⟩
    ⟨"1", none⟩ [demoProject] (by decide)
  refine ⟨?_, ?_⟩
  · rw [h.2.2.1]
    decide
  · rw [h.2.2.2.1]
    decide

/-- Counterexample to C10 as stated: entry 0 of the stored project holds
the defined color value empty string; a request supplying no color should,
by the claimed rule, keep that stored value, but the handler expression
prev.color OR default discards the falsy empty string and stores the
default palette green instead. -/
theorem putPartsMeta_claimed_fallback_cex :
    (assocFind "0"
        ((putPartsMeta (fun s => s)
            ⟨"1", some 0, none, none, none, none, some "pw"⟩
            [metaProject]).2.headD metaProject).partsMeta) =
      some ⟨some "n", some "t", some "#22c55e", some "m"⟩ ∧
    claimedMergeField none (some "") "#22c55e" = "" ∧
    ("#22c55e" : String) ≠ "" := by
  decide

/-- C10 amended: only an undefined partId is rejected with 400 (partId 0 in
particular is accepted); with a truthy password matching the stored hash
and an existing project, the handler stores under the string form of partId
the entry whose fields take the supplied value when defined, otherwise the
previously stored value when that is a non-empty string, otherwise the
defaults (empty for name and notes, palette green for color, plastic for
materialPreset); every other partsMeta key is left unchanged. -/
theorem putPartsMeta_merge_semantics (H : String → String) (req : PartsMetaReq)
    (projects : List Project) :
    (req.partId = none →
      (putPartsMeta H req projects).1.status = 400 ∧
      (putPartsMeta H req projects).2 = projects) ∧
    (∀ (pid : Int) (project : Project),
      req.partId = some pid →
      jsTruthy req.password = true →
      findProject projects req.id = some project →
      H (req.password.getD "") = project.passwordHash →
      (putPartsMeta H req projects).1.status = 200 ∧
      (putPartsMeta H req projects).1.ok = true ∧
      (putPartsMeta H req projects).2 =
        updateFirst (fun p => toString p.id == req.id)
          (fun p =>
            { p with
              partsMeta :=
                assocSet (toString pid)
                  (mergedPartsMetaEntry req
                    ((assocFind (toString pid) project.partsMeta).getD
                      ⟨none, none, none, none⟩))
                  p.partsMeta }) projects) ∧
    (∀ (key k : String) (e : PartMetaEntry) (ml : List (String × PartMetaEntry)),
      k ≠ key → assocFind k (assocSet key e ml) = assocFind k ml) := by
  refine ⟨?_, ?_, ?_⟩
  · intro h
    simp [putPartsMeta, h]
  · intro pid project hpid hpw hf hh
    simp [putPartsMeta, hpid, hpw, hf, hh]
  · intro key k e ml hk
    induction ml with
    | nil => simp [assocSet, assocFind, Ne.symm hk]
    | cons pr rest ih =>
      rcases pr with ⟨k0, v0⟩
      by_cases h0 : k0 = key
      · subst h0
        have : k0 ≠ k := fun h => hk (h ▸ rfl)
        simp [assocSet, assocFind, this]
      · by_cases h1 : k0 = k <;> simp [assocSet, assocFind, h0, h1, hk, ih]

/-- Closed witness for putPartsMeta_merge_semantics: partId 0 with a
correct password, supplying name and color, merging over entry 0 of the
demonstration project. -/
theorem putPartsMeta_merge_semantics_witness :
    (putPartsMeta (fun s => s)
        ⟨"1", some 0, some "tapa", none, some "#ff0000", none, some "pw"⟩
        [metaProject]).1.status = 200 ∧
    (putPartsMeta (fun s => s)
        ⟨"1", some 0, some "tapa", none, some "#ff0000", none, some "pw"⟩
        [metaProject]).1.ok = true ∧
    (putPartsMeta (fun s => s)
        ⟨"1", some 0, some "tapa", none, some "#ff0000", none, some "pw"⟩
        [metaProject]).2 =
      [⟨1, "Demo", "", "", "1-demo", "pw", "modelo.stl", Vec3.zero, Vec3.zero,
        [("0", ⟨some "tapa", some "t", some "#ff0000", some "m"⟩)], ""⟩] := by
  have h := (putPartsMeta_merge_semantics (fun s => s)
      ⟨"1", some 0, some "tapa", none, some "#ff0000", none, some "pw"⟩
      [metaProject]).2.1 0 metaProject rfl rfl (by decide) (by decide)
  refine ⟨h.1, h.2.1, ?_⟩
  rw [h.2.2]
  decide
